import Mathlib

/-!
Verification of the vite-shield configuration patcher.

The JavaScript sources are embedded shallowly:

* `SECURITY_HEADERS`, `transform` and its helpers model `lib/transformer`
  (the `module.exports` function in `src/bin/cli.js`, lines 61-102): a
  jscodeshift transform that looks for the first `defineConfig` call,
  takes its first argument, and for each of the sections `server` and
  `preview` ensures the section exists and has a `headers` property.
* `serverTemplateHeaders`, `nginxTemplateHeaders`, `updatePkg` and
  `updatePkgCli` model the artifact generators and the package.json
  update of the CLI (`src/unnamed/part_000`, lines 486-618, and
  `src/bin/cli.js`, lines 53-57).

JavaScript AST nodes are modelled by `Expr`; object properties are
pairs `Option Key × Expr` where the key `none` stands for a spread
element (which has no `key` field, so `p.key.name` throws a
`TypeError`).  Exceptions raised by the JavaScript code are modelled by
`Except JsErr`.
-/

/-- Runtime error raised by the JavaScript transform.  The only error the
modelled code can raise on a parsed tree is a `TypeError` from reading a
property of `undefined`. -/
inductive JsErr where
  | typeError
deriving Repr, DecidableEq

/-- Key of an object-literal property: an identifier key (`server: ...`)
or a string-literal key (`'server': ...`). -/
inductive Key where
  | ident (name : String)
  | str (value : String)
deriving Repr, DecidableEq

/-- Model of the JavaScript access `key.name`: identifier nodes carry a
`name` field, string-literal nodes do not (reading it gives
`undefined`, modelled as `none`). -/
def keyName : Key → Option String
  | .ident n => some n
  | .str _ => none

/-- JavaScript expression nodes relevant to the transform.  `obj` carries
its property list; a property `(none, e)` is a spread element `...e`,
and `(some k, v)` is a key/value property.  `other` stands for any
other expression form (arrow function, member expression, ...), which
the transform never looks inside. -/
inductive Expr where
  | lit (value : String)
  | ident (name : String)
  | call (callee : Expr) (args : List Expr)
  | obj (props : List (Option Key × Expr))
  | other (tag : String)
deriving Repr

/-- Model of the JavaScript access `callee.name` used by the jscodeshift
filter `{ callee: { name: 'defineConfig' } }`: only identifier callees
have a `name`. -/
def calleeName : Expr → Option String
  | .ident n => some n
  | .lit _ => none
  | .call _ _ => none
  | .obj _ => none
  | .other _ => none

/-- The canonical security header list `SECURITY_HEADERS` of
`src/bin/cli.js`, lines 63-73. -/
def SECURITY_HEADERS : List (String × String) :=
  [ ("Strict-Transport-Security", "max-age=31536000; includeSubDomains; preload"),
    ("X-Frame-Options", "SAMEORIGIN"),
    ("Content-Security-Policy", "default-src 'self'; script-src 'self' 'unsafe-inline'; style-src 'self' https:; img-src 'self' data:; frame-ancestors 'self'"),
    ("X-Content-Type-Options", "nosniff"),
    ("Referrer-Policy", "no-referrer"),
    ("X-DNS-Prefetch-Control", "off"),
    ("X-Download-Options", "noopen"),
    ("X-Permitted-Cross-Domain-Policies", "none"),
    ("X-XSS-Protection", "0") ]

/-- The property list `headerProps` built in `src/bin/cli.js`, lines
82-84: one string-literal-keyed property per canonical header. -/
def headerProps : List (Option Key × Expr) :=
  SECURITY_HEADERS.map (fun kv => (some (Key.str kv.1), Expr.lit kv.2))

/-- Model of `props.find(p => p.key.name === s)` (used in
`src/bin/cli.js` lines 87 and 94): scan the properties in order; a
spread element reached before a match throws a `TypeError` (it has no
`key`), a string-literal key has `name` equal to `undefined` and never
matches. -/
def findName : List (Option Key × Expr) → String → Except JsErr (Option Expr)
  | [], _ => .ok none
  | (none, _) :: _, _ => .error .typeError
  | (some k, v) :: rest, s =>
    if keyName k == some s then .ok (some v) else findName rest s

/-- Model of `src/bin/cli.js` lines 94-98 applied to the value of a
section property: look for a `headers` property; if it is absent,
append `headers: { ...headerProps }`; if the section value is not an
object literal, reading `.properties` of it gives `undefined` and the
`.find` call throws a `TypeError`. -/
def setHeaders : Expr → Except JsErr Expr
  | .obj ps =>
    match findName ps "headers" with
    | .error er => .error er
    | .ok (some _) => .ok (.obj ps)
    | .ok none => .ok (.obj (ps ++ [(some (.ident "headers"), .obj headerProps)]))
  | .lit _ => .error .typeError
  | .ident _ => .error .typeError
  | .call _ _ => .error .typeError
  | .other _ => .error .typeError

/-- Model of one iteration of the `forEach` in `src/bin/cli.js` lines
86-99: find the section property by `p.key.name === sec`; if absent,
push a new `sec: {}` property and fill its headers (net effect: append
`sec: { headers: headerProps }`); if present, run `setHeaders` on its
value in place. -/
def patchSection : List (Option Key × Expr) → String → Except JsErr (List (Option Key × Expr))
  | [], sec =>
    .ok [(some (.ident sec), .obj [(some (.ident "headers"), .obj headerProps)])]
  | (none, _) :: _, _ => .error .typeError
  | (some k, v) :: rest, sec =>
    if keyName k == some sec then
      match setHeaders v with
      | .error er => .error er
      | .ok v2 => .ok ((some k, v2) :: rest)
    else
      match patchSection rest sec with
      | .error er => .error er
      | .ok rest2 => .ok ((some k, v) :: rest2)

/-- The `['server', 'preview'].forEach` loop of `src/bin/cli.js` lines
86-99: patch `server`, then `preview`; an exception thrown for one
section aborts the whole loop. -/
def patchSections (props : List (Option Key × Expr)) : Except JsErr (List (Option Key × Expr)) :=
  match patchSection props "server" with
  | .error er => .error er
  | .ok p1 => patchSection p1 "preview"

/-- Model of `src/bin/cli.js` line 81 plus the section loop: take
`arguments[0]` of the matched call; when the argument list is empty the
argument is `undefined`, and when the argument is not an object literal
its `.properties` is `undefined`, so the subsequent `.find` throws a
`TypeError` in both cases. -/
def patchArgs : List Expr → Except JsErr (List Expr)
  | [] => .error .typeError
  | a :: rest =>
    match a with
    | .obj props =>
      match patchSections props with
      | .error er => .error er
      | .ok p2 => .ok (.obj p2 :: rest)
    | .lit _ => .error .typeError
    | .ident _ => .error .typeError
    | .call _ _ => .error .typeError
    | .other _ => .error .typeError

mutual

/-- Pre-order search for the first `defineConfig` call in an expression
(the jscodeshift `root.find(j.CallExpression, { callee: { name:
'defineConfig' } })` visits a node before its children, and a call's
callee before its arguments; `get(0)` takes the first match).  Returns
`some` of the rewritten expression when a call was found and patched,
`none` when no call occurs in the expression. -/
def patchFirstCall : Expr → Except JsErr (Option Expr)
  | .lit _ => .ok none
  | .ident _ => .ok none
  | .other _ => .ok none
  | .call c args =>
    if calleeName c == some "defineConfig" then
      match patchArgs args with
      | .error er => .error er
      | .ok args2 => .ok (some (.call c args2))
    else
      match patchFirstCall c with
      | .error er => .error er
      | .ok (some c2) => .ok (some (.call c2 args))
      | .ok none =>
        match patchFirstCallL args with
        | .error er => .error er
        | .ok (some args2) => .ok (some (.call c args2))
        | .ok none => .ok none
  | .obj props =>
    match patchFirstCallP props with
    | .error er => .error er
    | .ok (some p2) => .ok (some (.obj p2))
    | .ok none => .ok none

/-- Pre-order search for the first `defineConfig` call in an expression
list (program statements or call arguments, in source order). -/
def patchFirstCallL : List Expr → Except JsErr (Option (List Expr))
  | [] => .ok none
  | e :: rest =>
    match patchFirstCall e with
    | .error er => .error er
    | .ok (some e2) => .ok (some (e2 :: rest))
    | .ok none =>
      match patchFirstCallL rest with
      | .error er => .error er
      | .ok (some rest2) => .ok (some (e :: rest2))
      | .ok none => .ok none

/-- Pre-order search for the first `defineConfig` call in an object
property list (property values and spread arguments, in source
order). -/
def patchFirstCallP : List (Option Key × Expr) → Except JsErr (Option (List (Option Key × Expr)))
  | [] => .ok none
  | (k, v) :: rest =>
    match patchFirstCall v with
    | .error er => .error er
    | .ok (some v2) => .ok (some ((k, v2) :: rest))
    | .ok none =>
      match patchFirstCallP rest with
      | .error er => .error er
      | .ok (some rest2) => .ok (some ((k, v) :: rest2))
      | .ok none => .ok none

end

/-- The transform of `src/bin/cli.js` lines 75-102, at the level of the
parsed program (a list of top-level expressions): if no `defineConfig`
call exists, return the input unchanged (line 79 `return source`);
otherwise patch the first call in pre-order and reprint the tree. -/
def transform (prog : List Expr) : Except JsErr (List Expr) :=
  match patchFirstCallL prog with
  | .error er => .error er
  | .ok none => .ok prog
  | .ok (some p2) => .ok p2

/-- Error outcomes of the string-level patch: an unparseable input (the
jscodeshift `j(source)` call throws), or a `TypeError` raised while
patching the tree. -/
inductive PatchErr where
  | parseError
  | typeError
deriving Repr, DecidableEq

/-- String-level wrapper for the transform, abstract in the parser and
printer supplied by jscodeshift: parse the source, and return the input
string itself (not a reprint) when no `defineConfig` call is found,
exactly as `src/bin/cli.js` line 79 does. -/
def patchWith (parse : String → Option (List Expr)) (toSource : List Expr → String)
    (src : String) : Except PatchErr String :=
  match parse src with
  | none => .error .parseError
  | some prog =>
    match patchFirstCallL prog with
    | .error _ => .error .typeError
    | .ok none => .ok src
    | .ok (some p2) => .ok (toSource p2)

mutual

/-- All `defineConfig` call nodes of an expression, in the pre-order
visit order used by jscodeshift's `find`. -/
def collectCallsE : Expr → List Expr
  | .lit _ => []
  | .ident _ => []
  | .other _ => []
  | .call c args =>
    (if calleeName c == some "defineConfig" then [.call c args] else [])
      ++ collectCallsE c ++ collectCallsL args
  | .obj props => collectCallsP props

/-- All `defineConfig` call nodes of an expression list, in pre-order. -/
def collectCallsL : List Expr → List Expr
  | [] => []
  | e :: rest => collectCallsE e ++ collectCallsL rest

/-- All `defineConfig` call nodes of an object property list, in
pre-order. -/
def collectCallsP : List (Option Key × Expr) → List Expr
  | [] => []
  | (_, v) :: rest => collectCallsE v ++ collectCallsP rest

end

/-- Lookup of the first identifier-keyed property with the given name,
used only to state results about patched trees. -/
def lookupIdentKey : List (Option Key × Expr) → String → Option Expr
  | [], _ => none
  | (some (.ident n), v) :: rest, s =>
    if n == s then some v else lookupIdentKey rest s
  | (some (.str _), _) :: rest, s => lookupIdentKey rest s
  | (none, _) :: rest, s => lookupIdentKey rest s

/-- Property list of an object literal, if the expression is one. -/
def objProps : Expr → Option (List (Option Key × Expr))
  | .obj ps => some ps
  | .lit _ => none
  | .ident _ => none
  | .call _ _ => none
  | .other _ => none

/-- Headers map of a named section inside a config object's property
list: the value of the section's `headers` property, when the section
and the map are identifier-keyed object literals. -/
def headersOfSection (props : List (Option Key × Expr)) (sec : String) :
    Option (List (Option Key × Expr)) :=
  match lookupIdentKey props sec with
  | none => none
  | some v =>
    match objProps v with
    | none => none
    | some ps =>
      match lookupIdentKey ps "headers" with
      | none => none
      | some hv => objProps hv

/-- Property list of the object argument of the first `defineConfig`
call of a program, when that call exists and its first argument is an
object literal. -/
def firstConfigArgProps (prog : List Expr) : Option (List (Option Key × Expr)) :=
  match collectCallsL prog with
  | .call _ (.obj props :: _) :: _ => some props
  | _ => none

/-- Headers map of a named section of the first `defineConfig` call's
argument object. -/
def headersOfProg (prog : List Expr) (sec : String) : Option (List (Option Key × Expr)) :=
  match firstConfigArgProps prog with
  | none => none
  | some props => headersOfSection props sec

/-- Result tree of the transform, with an empty program standing for a
raised exception (used only to state concrete counterexamples). -/
def runTransform (prog : List Expr) : List Expr :=
  match transform prog with
  | .ok p => p
  | .error _ => []

/-- Truth of `e` being an object literal. -/
def isObjB : Expr → Bool
  | .obj _ => true
  | .lit _ => false
  | .ident _ => false
  | .call _ _ => false
  | .other _ => false

/-- Condition of claim C3's failure mode on an argument list: the first
positional argument is absent or is not an object literal. -/
def firstArgNotObj : List Expr → Bool
  | [] => true
  | a :: _ => !(isObjB a)

/-- Property list free of spread elements. -/
def noSpreadB : List (Option Key × Expr) → Bool
  | [] => true
  | (none, _) :: _ => false
  | (some _, _) :: rest => noSpreadB rest

/-- Property list containing an identifier-keyed property of the given
name. -/
def hasIdentKeyB (props : List (Option Key × Expr)) (s : String) : Bool :=
  (lookupIdentKey props s).isSome

/-- Property list containing a string-literal-keyed property of the
given name. -/
def hasStrKeyB : List (Option Key × Expr) → String → Bool
  | [], _ => false
  | (some (.str t), _) :: rest, s => t == s || hasStrKeyB rest s
  | (some (.ident _), _) :: rest, s => hasStrKeyB rest s
  | (none, _) :: rest, s => hasStrKeyB rest s

/-- Specification-side description of a successful
`props.find(p => p.key.name === s)`: the first property whose key name
is `s` has value `v`, and every earlier property is a keyed property
with a different key name (so the scan reaches the match without
throwing). -/
inductive FindKV : List (Option Key × Expr) → String → Expr → Prop where
  | here (k : Key) (v : Expr) (rest : List (Option Key × Expr)) (s : String)
      (hk : keyName k = some s) : FindKV ((some k, v) :: rest) s v
  | there (k : Key) (v : Expr) (rest : List (Option Key × Expr)) (s : String) (w : Expr)
      (hk : keyName k ≠ some s) (h : FindKV rest s w) : FindKV ((some k, v) :: rest) s w

/-- Header name/value pairs written by the generated Express server
(`serverTemplate`, `src/unnamed/part_000` lines 514-559): the arguments
of its `res.setHeader` calls, in order. -/
def serverTemplateHeaders : List (String × String) :=
  [ ("Strict-Transport-Security", "max-age=31536000; includeSubDomains; preload"),
    ("X-Frame-Options", "SAMEORIGIN"),
    ("Content-Security-Policy", "default-src 'self'; script-src 'self' 'unsafe-inline'; style-src 'self' 'unsafe-inline' https: https://fonts.googleapis.com; img-src 'self' data: blob: https://*.googleusercontent.com https://*.blob.core.windows.net; font-src 'self' data: https://fonts.gstatic.com; connect-src 'self' https://*.blob.core.windows.net wss:; frame-src 'self' blob:; media-src 'self' blob: https://*.blob.core.windows.net; frame-ancestors 'self'"),
    ("X-Content-Type-Options", "nosniff"),
    ("Referrer-Policy", "no-referrer"),
    ("X-DNS-Prefetch-Control", "off"),
    ("X-Download-Options", "noopen"),
    ("X-Permitted-Cross-Domain-Policies", "none"),
    ("X-XSS-Protection", "0") ]

/-- Header name/value pairs written by the generated reverse-proxy
configuration (`nginxTemplate`, `src/unnamed/part_000` lines 566-589):
the arguments of its `add_header` directives, in order. -/
def nginxTemplateHeaders : List (String × String) :=
  [ ("Strict-Transport-Security", "max-age=31536000; includeSubDomains; preload"),
    ("X-Frame-Options", "SAMEORIGIN"),
    ("Content-Security-Policy", "default-src 'self'; script-src 'self' 'unsafe-inline'; style-src 'self' 'unsafe-inline' https: https://fonts.googleapis.com; img-src 'self' data: blob: https://*.googleusercontent.com https://*.blob.core.windows.net; font-src 'self' data: https://fonts.gstatic.com; connect-src 'self' https://*.blob.core.windows.net wss:; frame-src 'self' blob:; media-src 'self' blob: https://*.blob.core.windows.net; frame-ancestors 'self'"),
    ("X-Content-Type-Options", "nosniff"),
    ("Referrer-Policy", "no-referrer"),
    ("X-DNS-Prefetch-Control", "off"),
    ("X-Download-Options", "noopen"),
    ("X-Permitted-Cross-Domain-Policies", "none"),
    ("X-XSS-Protection", "0") ]

/-- Package manifest fields touched by the CLI.  Maps are association
lists in insertion order, mirroring JavaScript object key order;
`none` models an absent field. -/
structure Pkg where
  scripts : Option (List (String × String))
  dependencies : Option (List (String × String))
  type : Option String
deriving Repr, DecidableEq

/-- JavaScript assignment `obj[k] = v` on an object modelled as an
association list: replace the value in place if the key exists,
otherwise append the new key. -/
def setKey : List (String × String) → String → String → List (String × String)
  | [], k, v => [(k, v)]
  | (k1, v1) :: rest, k, v =>
    if k1 == k then (k, v) :: rest else (k1, v1) :: setKey rest k v

/-- Truthiness of a looked-up string field (`undefined` and the empty
string are falsy in JavaScript). -/
def truthyVal : Option String → Bool
  | none => false
  | some s => !(s == "")

/-- Model of the package.json update of `src/unnamed/part_000` lines
594-615: `pkg.scripts['start'] = 'node server.js'` unconditionally
(after creating `scripts` if falsy); `express` is added to
`dependencies` only when `pkg.dependencies.express` is falsy; `type`
is set to `module` only when falsy. -/
def updatePkg (pkg : Pkg) : Pkg :=
  let scripts0 := match pkg.scripts with
    | none => []
    | some s => s
  let scripts1 := setKey scripts0 "start" "node server.js"
  let deps0 := match pkg.dependencies with
    | none => []
    | some d => d
  let deps1 := if truthyVal (List.lookup "express" deps0) then deps0
    else setKey deps0 "express" "^4.21.2"
  let type1 := if truthyVal pkg.type then pkg.type else some "module"
  { scripts := some scripts1, dependencies := some deps1, type := type1 }

/-- Model of the package.json update of `src/bin/cli.js` lines 53-57:
`pkg.scripts['serve:prod'] = 'node server.js'` with no existence check;
when `scripts` is absent the member assignment on `undefined` throws a
`TypeError`. -/
def updatePkgCli (pkg : Pkg) : Except JsErr Pkg :=
  match pkg.scripts with
  | none => .error .typeError
  | some s => .ok { pkg with scripts := some (setKey s "serve:prod" "node server.js") }

/-- Section property appended by the transform when a section is absent:
`sec: { headers: { ...headerProps } }` (net effect of `src/bin/cli.js`
lines 89-97 on a fresh section). -/
def newSectionProp (sec : String) : Option Key × Expr :=
  (some (.ident sec), .obj [(some (.ident "headers"), .obj headerProps)])

/-- Degenerate parser used to instantiate `patchWith` in witnesses: every
source parses to a single opaque statement. -/
def opaqueParse (s : String) : Option (List Expr) :=
  some [Expr.other s]

/-- Degenerate printer used to instantiate `patchWith` in witnesses. -/
def emptyPrint (_ : List Expr) : String :=
  ""

/-! ### Lemmas about the property scans -/

theorem beq_keyName_true {k : Key} {s : String} (h : keyName k = some s) :
    (keyName k == some s) = true := by
  simp [h]

theorem beq_keyName_false {k : Key} {s : String} (h : keyName k ≠ some s) :
    (keyName k == some s) = false := by
  simp [h]

theorem findName_of_FindKV {ps : List (Option Key × Expr)} {s : String} {w : Expr}
    (h : FindKV ps s w) : findName ps s = .ok (some w) := by
  induction h with
  | here k v rest s1 hk =>
      rw [findName]
      split
      · rfl
      · next hb => exact absurd (beq_keyName_true hk) (by simp [hb])
  | there k v rest s1 w1 hk h1 ih =>
      rw [findName]
      split
      · next hb => exact absurd (by simpa using hb) hk
      · exact ih

theorem setHeaders_found {ps : List (Option Key × Expr)} {w : Expr}
    (h : FindKV ps "headers" w) : setHeaders (.obj ps) = .ok (.obj ps) := by
  rw [setHeaders, findName_of_FindKV h]

/-- C1 (amended), core statement: when the section is found and its
object already has a `headers` property, `patchSection` returns the
property list completely unchanged, in particular appending none of the
canonical keys. -/
theorem c1_existing_headers_left_untouched
    {props : List (Option Key × Expr)} {sec : String} {v : Expr}
    {ps : List (Option Key × Expr)} {w : Expr}
    (hsec : FindKV props sec v) (hv : v = .obj ps) (hhdr : FindKV ps "headers" w) :
    patchSection props sec = .ok props := by
  induction hsec with
  | here k v1 rest s1 hk =>
      subst hv
      rw [patchSection]
      split
      · rw [setHeaders_found hhdr]
      · next hb => exact absurd (beq_keyName_true hk) (by simp [hb])
  | there k v1 rest s1 w1 hk h1 ih =>
      rw [patchSection]
      split
      · next hb => exact absurd (by simpa using hb) hk
      · rw [ih hv]

/-- C1 witness: a concrete `server` section whose headers map already
holds `X-Frame-Options: DENY` is left exactly as it was. -/
theorem c1_witness :
    patchSection
      [(some (.ident "server"),
        .obj [(some (.ident "headers"),
               .obj [(some (.str "X-Frame-Options"), .lit "DENY")])])] "server"
    = .ok
      [(some (.ident "server"),
        .obj [(some (.ident "headers"),
               .obj [(some (.str "X-Frame-Options"), .lit "DENY")])])] :=
  c1_existing_headers_left_untouched
    (FindKV.here (.ident "server") _ _ "server" rfl) rfl
    (FindKV.here (.ident "headers") _ _ "headers" rfl)

/-- C1 counterexample: on the config
`defineConfig({server: {headers: {'X-Frame-Options': 'DENY'}}})` the
transform succeeds, keeps `DENY`, but does NOT append the other eight
canonical keys: the resulting `server.headers` map still has exactly
the one pre-existing entry, contradicting the claim that the eight
missing canonical keys are appended. -/
theorem c1_counterexample :
    transform
      [.call (.ident "defineConfig")
        [.obj [(some (.ident "server"),
                .obj [(some (.ident "headers"),
                       .obj [(some (.str "X-Frame-Options"), .lit "DENY")])])]]]
    = .ok
      [.call (.ident "defineConfig")
        [.obj [(some (.ident "server"),
                .obj [(some (.ident "headers"),
                       .obj [(some (.str "X-Frame-Options"), .lit "DENY")])]),
               newSectionProp "preview"]]] ∧
    headersOfProg
      (runTransform
        [.call (.ident "defineConfig")
          [.obj [(some (.ident "server"),
                  .obj [(some (.ident "headers"),
                         .obj [(some (.str "X-Frame-Options"), .lit "DENY")])])]]])
      "server"
    = some [(some (.str "X-Frame-Options"), .lit "DENY")] :=
  ⟨rfl, rfl⟩

/-- C2: patching the minimal input `export default defineConfig({})`
yields a config whose `server.headers` and `preview.headers` both hold
all nine canonical header entries with their canonical values. -/
theorem c2_minimal_input_completeness :
    headersOfProg (runTransform [.call (.ident "defineConfig") [.obj []]]) "server"
      = some
        [ (some (.str "Strict-Transport-Security"),
           .lit "max-age=31536000; includeSubDomains; preload"),
          (some (.str "X-Frame-Options"), .lit "SAMEORIGIN"),
          (some (.str "Content-Security-Policy"),
           .lit "default-src 'self'; script-src 'self' 'unsafe-inline'; style-src 'self' https:; img-src 'self' data:; frame-ancestors 'self'"),
          (some (.str "X-Content-Type-Options"), .lit "nosniff"),
          (some (.str "Referrer-Policy"), .lit "no-referrer"),
          (some (.str "X-DNS-Prefetch-Control"), .lit "off"),
          (some (.str "X-Download-Options"), .lit "noopen"),
          (some (.str "X-Permitted-Cross-Domain-Policies"), .lit "none"),
          (some (.str "X-XSS-Protection"), .lit "0") ] ∧
    headersOfProg (runTransform [.call (.ident "defineConfig") [.obj []]]) "preview"
      = some
        [ (some (.str "Strict-Transport-Security"),
           .lit "max-age=31536000; includeSubDomains; preload"),
          (some (.str "X-Frame-Options"), .lit "SAMEORIGIN"),
          (some (.str "Content-Security-Policy"),
           .lit "default-src 'self'; script-src 'self' 'unsafe-inline'; style-src 'self' https:; img-src 'self' data:; frame-ancestors 'self'"),
          (some (.str "X-Content-Type-Options"), .lit "nosniff"),
          (some (.str "Referrer-Policy"), .lit "no-referrer"),
          (some (.str "X-DNS-Prefetch-Control"), .lit "off"),
          (some (.str "X-Download-Options"), .lit "noopen"),
          (some (.str "X-Permitted-Cross-Domain-Policies"), .lit "none"),
          (some (.str "X-XSS-Protection"), .lit "0") ] :=
  ⟨rfl, rfl⟩

/-- C3 (amended): when the first `defineConfig` call's first positional
argument is absent or is not an object literal, the transform raises a
`TypeError` (reading `.properties` of a non-object), rather than
returning the input unchanged. -/
theorem c3_bad_argument_raises (args rest : List Expr)
    (h : firstArgNotObj args = true) :
    transform (.call (.ident "defineConfig") args :: rest) = .error .typeError := by
  cases args with
  | nil => rfl
  | cons a rest2 =>
      cases a with
      | obj ps => simp [firstArgNotObj, isObjB] at h
      | lit s => rfl
      | ident s => rfl
      | call c as2 => rfl
      | other t => rfl

/-- C3 witness: `defineConfig` applied to a plain identifier makes the
transform raise. -/
theorem c3_witness :
    transform [.call (.ident "defineConfig") [.ident "sharedConfig"], .lit "tail"]
      = .error .typeError :=
  c3_bad_argument_raises [.ident "sharedConfig"] [.lit "tail"] rfl

/-- C3 counterexample: both for a missing argument (`defineConfig()`)
and for a non-object argument (`defineConfig(cfg)`) the transform
raises a `TypeError` instead of returning the input unchanged, so the
claim that it never raises on syntactically valid input is false. -/
theorem c3_counterexample :
    transform [.call (.ident "defineConfig") []] = .error .typeError ∧
    transform [.call (.ident "defineConfig") [.ident "cfg"]] = .error .typeError :=
  ⟨rfl, rfl⟩

theorem patchSection_found_nonobj {props : List (Option Key × Expr)} {sec : String} {v : Expr}
    (hsec : FindKV props sec v) (hv : isObjB v = false) :
    patchSection props sec = .error .typeError := by
  induction hsec with
  | here k v1 rest s1 hk =>
      rw [patchSection]
      split
      · cases v1 with
        | obj ps => simp [isObjB] at hv
        | lit s => rfl
        | ident s => rfl
        | call c as2 => rfl
        | other t => rfl
      · next hb => exact absurd (beq_keyName_true hk) (by simp [hb])
  | there k v1 rest s1 w1 hk h1 ih =>
      rw [patchSection]
      split
      · next hb => exact absurd (by simpa using hb) hk
      · rw [ih hv]

/-- C6 (amended): when an existing `server` property has a value that is
not an object literal, the transform does not skip just that section:
the whole section loop raises a `TypeError` (reading `.properties` of
the non-object value), so nothing at all is patched. -/
theorem c6_nonobject_section_raises {props : List (Option Key × Expr)} {v : Expr}
    (hsec : FindKV props "server" v) (hv : isObjB v = false) :
    patchSections props = .error .typeError := by
  rw [patchSections, patchSection_found_nonobj hsec hv]

/-- C6 witness: a `server` section bound to an identifier makes the
section loop raise even though a perfectly editable `preview` section
is present. -/
theorem c6_witness :
    patchSections
      [(some (.ident "server"), .ident "baseServer"),
       (some (.ident "preview"), .obj [])] = .error .typeError :=
  c6_nonobject_section_raises
    (FindKV.here (.ident "server") _ _ "server" rfl) rfl

/-- C6 counterexample: on
`defineConfig({server: base, preview: {}})` the whole transform raises
a `TypeError`; it neither skips only the `server` section nor patches
the editable `preview` section, contradicting the claim. -/
theorem c6_counterexample :
    transform
      [.call (.ident "defineConfig")
        [.obj [(some (.ident "server"), .ident "base"),
               (some (.ident "preview"), .obj [])]]]
    = .error .typeError :=
  rfl

theorem lookupIdentKey_append_of_none {props ys : List (Option Key × Expr)} {s : String}
    (h : lookupIdentKey props s = none) :
    lookupIdentKey (props ++ ys) s = lookupIdentKey ys s := by
  induction props with
  | nil => rfl
  | cons p rest ih =>
      obtain ⟨ok, v⟩ := p
      cases ok with
      | none =>
          rw [List.cons_append, lookupIdentKey]
          rw [lookupIdentKey] at h
          exact ih h
      | some k =>
          cases k with
          | ident n =>
              rw [List.cons_append, lookupIdentKey]
              rw [lookupIdentKey] at h
              split at h
              · exact absurd h (by simp)
              · next hb =>
                  rw [if_neg hb]
                  exact ih h
          | str t =>
              rw [List.cons_append, lookupIdentKey]
              rw [lookupIdentKey] at h
              exact ih h

theorem patchSection_not_found {props : List (Option Key × Expr)} {s : String}
    (hns : noSpreadB props = true) (hni : hasIdentKeyB props s = false) :
    patchSection props s = .ok (props ++ [newSectionProp s]) := by
  induction props with
  | nil => rfl
  | cons p rest ih =>
      obtain ⟨ok, v⟩ := p
      cases ok with
      | none => simp [noSpreadB] at hns
      | some k =>
          rw [noSpreadB] at hns
          cases k with
          | ident n =>
              rw [hasIdentKeyB, lookupIdentKey] at hni
              split at hni
              · exact absurd hni (by simp)
              · next hb =>
                  rw [patchSection]
                  rw [if_neg (by simpa [keyName] using hb)]
                  rw [ih hns hni]
                  rfl
          | str t =>
              rw [hasIdentKeyB, lookupIdentKey] at hni
              rw [patchSection]
              rw [if_neg (by simp [keyName])]
              rw [ih hns hni]
              rfl

/-- C10: section lookup matches only identifier-keyed properties.  For
a config object literal without spreads and without an identifier-keyed
property named `s`, even if it does contain a string-literal-keyed
property `'s': ...`, the transform does not find it: it appends a
second, identifier-keyed `s` section at the end, so the output object
carries the section name under both key forms (a duplicate key). -/
theorem c10_string_key_section_duplicated
    {props : List (Option Key × Expr)} {s : String}
    (hns : noSpreadB props = true) (hni : hasIdentKeyB props s = false)
    (hstr : hasStrKeyB props s = true) :
    patchSection props s = .ok (props ++ [newSectionProp s]) ∧
    hasStrKeyB (props ++ [newSectionProp s]) s = true ∧
    hasIdentKeyB (props ++ [newSectionProp s]) s = true := by
  refine ⟨patchSection_not_found hns hni, ?_, ?_⟩
  · clear hns hni
    induction props with
    | nil => simp [hasStrKeyB] at hstr
    | cons p rest ih =>
        obtain ⟨ok, v⟩ := p
        cases ok with
        | none =>
            rw [hasStrKeyB] at hstr
            rw [List.cons_append, hasStrKeyB]
            exact ih hstr
        | some k =>
            cases k with
            | ident n =>
                rw [hasStrKeyB] at hstr
                rw [List.cons_append, hasStrKeyB]
                exact ih hstr
            | str t =>
                rw [hasStrKeyB] at hstr
                rw [List.cons_append, hasStrKeyB]
                rcases Bool.or_eq_true_iff.mp hstr with h1 | h2
                · rw [h1]; rfl
                · rw [ih h2]; simp
  · rw [hasIdentKeyB, lookupIdentKey_append_of_none (by simpa [hasIdentKeyB] using hni)]
    simp [newSectionProp, lookupIdentKey]

/-- C10 witness: the concrete object `{'server': {}}` gets a second,
identifier-keyed `server` section appended. -/
theorem c10_witness :
    patchSection [(some (.str "server"), .obj [])] "server"
      = .ok ([(some (.str "server"), .obj [])] ++ [newSectionProp "server"]) ∧
    hasStrKeyB ([(some (.str "server"), .obj [])] ++ [newSectionProp "server"]) "server" = true ∧
    hasIdentKeyB ([(some (.str "server"), .obj [])] ++ [newSectionProp "server"]) "server" = true :=
  c10_string_key_section_duplicated rfl rfl rfl

/-! ### Idempotence of the transform (claim C4) -/

theorem findName_append_of_none {ps ys : List (Option Key × Expr)} {s : String}
    (h : findName ps s = .ok none) :
    findName (ps ++ ys) s = findName ys s := by
  induction ps with
  | nil => rfl
  | cons p rest ih =>
      obtain ⟨ok, v⟩ := p
      cases ok with
      | none => rw [findName] at h; simp at h
      | some k =>
          rw [findName] at h
          split at h
          · simp at h
          · next hb => rw [List.cons_append, findName, if_neg hb]; exact ih h

theorem setHeaders_idem {v v2 : Expr} (h : setHeaders v = .ok v2) :
    setHeaders v2 = .ok v2 := by
  cases v with
  | obj ps =>
      rw [setHeaders] at h
      split at h
      · simp at h
      · next w hf =>
          have hv : v2 = .obj ps := by simpa using h.symm
          subst hv
          rw [setHeaders, hf]
      · next hf =>
          have hv : v2 = .obj (ps ++ [(some (.ident "headers"), .obj headerProps)]) := by
            simpa using h.symm
          subst hv
          rw [setHeaders, findName_append_of_none hf]
          rfl
  | lit s => rw [setHeaders] at h; simp at h
  | ident s => rw [setHeaders] at h; simp at h
  | call c as2 => rw [setHeaders] at h; simp at h
  | other t => rw [setHeaders] at h; simp at h

theorem patchSection_idem {props p2 : List (Option Key × Expr)} {sec : String}
    (h : patchSection props sec = .ok p2) : patchSection p2 sec = .ok p2 := by
  induction props generalizing p2 with
  | nil =>
      rw [patchSection] at h
      have hp : p2 = [(some (.ident sec), .obj [(some (.ident "headers"), .obj headerProps)])] := by
        simpa using h.symm
      subst hp
      rw [patchSection]
      rw [if_pos (by simp [keyName])]
      rfl
  | cons p rest ih =>
      obtain ⟨ok, v⟩ := p
      cases ok with
      | none => rw [patchSection] at h; simp at h
      | some k =>
          rw [patchSection] at h
          split at h
          · next hb =>
              split at h
              · simp at h
              · next v2 hs =>
                  have hp : p2 = (some k, v2) :: rest := by simpa using h.symm
                  subst hp
                  rw [patchSection, if_pos hb, setHeaders_idem hs]
          · next hb =>
              split at h
              · simp at h
              · next rest2 hr =>
                  have hp : p2 = (some k, v) :: rest2 := by simpa using h.symm
                  subst hp
                  rw [patchSection, if_neg hb, ih hr]

theorem patchSection_stable {props p2 : List (Option Key × Expr)} {sec1 sec2 : String}
    (h1 : patchSection props sec1 = .ok props) (h2 : patchSection props sec2 = .ok p2) :
    patchSection p2 sec1 = .ok p2 := by
  induction props generalizing p2 with
  | nil =>
      rw [patchSection] at h1
      simp at h1
  | cons p rest ih =>
      obtain ⟨ok, v⟩ := p
      cases ok with
      | none => rw [patchSection] at h1; simp at h1
      | some k =>
          rw [patchSection] at h1
          split at h1
          · next hb1 =>
              split at h1
              · simp at h1
              · next v2 hs =>
                  have hv : v2 = v := by simpa using h1
                  rw [hv] at hs
                  rw [patchSection] at h2
                  split at h2
                  · next hb2 =>
                      split at h2
                      · simp at h2
                      · next v3 hs3 =>
                          have hp : p2 = (some k, v3) :: rest := by simpa using h2.symm
                          subst hp
                          rw [patchSection, if_pos hb1, setHeaders_idem hs3]
                  · next hb2 =>
                      split at h2
                      · simp at h2
                      · next rest2 hr2 =>
                          have hp : p2 = (some k, v) :: rest2 := by simpa using h2.symm
                          subst hp
                          rw [patchSection, if_pos hb1, hs]
          · next hb1 =>
              split at h1
              · simp at h1
              · next rest1 hr1 =>
                  have hrr : rest1 = rest := by simpa using h1
                  rw [hrr] at hr1
                  rw [patchSection] at h2
                  split at h2
                  · next hb2 =>
                      split at h2
                      · simp at h2
                      · next v3 hs3 =>
                          have hp : p2 = (some k, v3) :: rest := by simpa using h2.symm
                          subst hp
                          rw [patchSection, if_neg hb1, hr1]
                  · next hb2 =>
                      split at h2
                      · simp at h2
                      · next rest2 hr2 =>
                          have hp : p2 = (some k, v) :: rest2 := by simpa using h2.symm
                          subst hp
                          rw [patchSection, if_neg hb1, ih hr1 hr2]

theorem patchSections_idem {props p2 : List (Option Key × Expr)}
    (h : patchSections props = .ok p2) : patchSections p2 = .ok p2 := by
  rw [patchSections] at h
  split at h
  · simp at h
  · next p1 hs =>
      have h2 : patchSection p2 "server" = .ok p2 :=
        patchSection_stable (patchSection_idem hs) h
      rw [patchSections, h2]
      exact patchSection_idem h

theorem patchArgs_idem {args args2 : List Expr} (h : patchArgs args = .ok args2) :
    patchArgs args2 = .ok args2 := by
  cases args with
  | nil => rw [patchArgs] at h; simp at h
  | cons a rest =>
      cases a with
      | obj ps =>
          rw [patchArgs] at h
          split at h
          · simp at h
          · next p2 hp =>
              have ha : args2 = .obj p2 :: rest := by simpa using h.symm
              subst ha
              rw [patchArgs, patchSections_idem hp]
      | lit s => rw [patchArgs] at h; simp at h
      | ident s => rw [patchArgs] at h; simp at h
      | call c as2 => rw [patchArgs] at h; simp at h
      | other t => rw [patchArgs] at h; simp at h

theorem calleeName_of_patchFirstCall_some : (e e2 : Expr) →
    patchFirstCall e = .ok (some e2) → calleeName e2 = calleeName e := by
  intro e e2 h
  cases e with
  | lit s => simp [patchFirstCall] at h
  | ident s => simp [patchFirstCall] at h
  | other s => simp [patchFirstCall] at h
  | call c args =>
      rw [patchFirstCall] at h
      split at h
      · split at h <;> try (cases h)
        · rfl
      · split at h <;> try (cases h)
        · rfl
        · split at h <;> cases h
          rfl
  | obj props =>
      rw [patchFirstCall] at h
      split at h <;> cases h
      rfl

mutual

theorem patchFirstCall_idem : (e e2 : Expr) →
    patchFirstCall e = .ok (some e2) → patchFirstCall e2 = .ok (some e2)
  | .lit s, e2, h => by simp [patchFirstCall] at h
  | .ident s, e2, h => by simp [patchFirstCall] at h
  | .other s, e2, h => by simp [patchFirstCall] at h
  | .call c args, e2, h => by
      rw [patchFirstCall] at h
      split at h
      · next hc =>
          split at h
          · simp at h
          · next args2 ha =>
              have he : e2 = .call c args2 := by simpa using h.symm
              subst he
              rw [patchFirstCall, if_pos hc, patchArgs_idem ha]
      · next hc =>
          split at h
          · simp at h
          · next c2 hh =>
              have he : e2 = .call c2 args := by simpa using h.symm
              subst he
              have hcn := calleeName_of_patchFirstCall_some c c2 hh
              rw [patchFirstCall]
              rw [if_neg (by rw [hcn]; exact hc)]
              rw [patchFirstCall_idem c c2 hh]
          · next hh =>
              split at h
              · simp at h
              · next args2 ha =>
                  have he : e2 = .call c args2 := by simpa using h.symm
                  subst he
                  rw [patchFirstCall, if_neg hc, hh, patchFirstCallL_idem args args2 ha]
              · simp at h
  | .obj props, e2, h => by
      rw [patchFirstCall] at h
      split at h
      · simp at h
      · next p2 hp =>
          have he : e2 = .obj p2 := by simpa using h.symm
          subst he
          rw [patchFirstCall, patchFirstCallP_idem props p2 hp]
      · simp at h

theorem patchFirstCallL_idem : (l l2 : List Expr) →
    patchFirstCallL l = .ok (some l2) → patchFirstCallL l2 = .ok (some l2)
  | [], l2, h => by simp [patchFirstCallL] at h
  | e :: rest, l2, h => by
      rw [patchFirstCallL] at h
      split at h
      · simp at h
      · next e2 he =>
          have hl : l2 = e2 :: rest := by simpa using h.symm
          subst hl
          rw [patchFirstCallL, patchFirstCall_idem e e2 he]
      · next he =>
          split at h
          · simp at h
          · next rest2 hr =>
              have hl : l2 = e :: rest2 := by simpa using h.symm
              subst hl
              rw [patchFirstCallL, he, patchFirstCallL_idem rest rest2 hr]
          · simp at h

theorem patchFirstCallP_idem : (l l2 : List (Option Key × Expr)) →
    patchFirstCallP l = .ok (some l2) → patchFirstCallP l2 = .ok (some l2)
  | [], l2, h => by simp [patchFirstCallP] at h
  | (k, v) :: rest, l2, h => by
      rw [patchFirstCallP] at h
      split at h
      · simp at h
      · next v2 hv =>
          have hl : l2 = (k, v2) :: rest := by simpa using h.symm
          subst hl
          rw [patchFirstCallP, patchFirstCall_idem v v2 hv]
      · next hv =>
          split at h
          · simp at h
          · next rest2 hr =>
              have hl : l2 = (k, v) :: rest2 := by simpa using h.symm
              subst hl
              rw [patchFirstCallP, hv, patchFirstCallP_idem rest rest2 hr]
          · simp at h

end

/-- C4: the transform is idempotent.  Whenever it succeeds on a parsed
program, running it again on the result succeeds and changes nothing:
the pre-existing sections and headers maps are found on the second run,
so no property is appended twice. -/
theorem c4_transform_idempotent (prog prog2 : List Expr)
    (h : transform prog = .ok prog2) : transform prog2 = .ok prog2 := by
  rw [transform] at h
  split at h
  · simp at h
  · next hn =>
      have hp : prog2 = prog := by simpa using h.symm
      subst hp
      rw [transform, hn]
  · next p2 hp =>
      have hq : prog2 = p2 := by simpa using h.symm
      subst hq
      rw [transform, patchFirstCallL_idem _ _ hp]

/-- C4 witness: re-running the transform on the patched minimal config
`defineConfig({})` reproduces it unchanged. -/
theorem c4_witness :
    transform (runTransform [.call (.ident "defineConfig") [.obj []]])
      = .ok (runTransform [.call (.ident "defineConfig") [.obj []]]) :=
  c4_transform_idempotent [.call (.ident "defineConfig") [.obj []]]
    (runTransform [.call (.ident "defineConfig") [.obj []]]) (by rfl)

/-! ### The transform touches only the first call site (claims C5, C9) -/

theorem collectCallsP_append (xs ys : List (Option Key × Expr)) :
    collectCallsP (xs ++ ys) = collectCallsP xs ++ collectCallsP ys := by
  induction xs with
  | nil => rfl
  | cons p rest ih =>
      obtain ⟨k, v⟩ := p
      rw [List.cons_append, collectCallsP, collectCallsP, ih, List.append_assoc]

theorem setHeaders_collect {v v2 : Expr} (h : setHeaders v = .ok v2) :
    collectCallsE v2 = collectCallsE v := by
  cases v with
  | obj ps =>
      rw [setHeaders] at h
      split at h
      · simp at h
      · next w hf =>
          have hv : v2 = .obj ps := by simpa using h.symm
          rw [hv]
      · next hf =>
          have hv : v2 = .obj (ps ++ [(some (.ident "headers"), .obj headerProps)]) := by
            simpa using h.symm
          have hnil : collectCallsP [(some (.ident "headers"), .obj headerProps)] = [] := rfl
          rw [hv, collectCallsE, collectCallsE, collectCallsP_append, hnil, List.append_nil]
  | lit s => rw [setHeaders] at h; simp at h
  | ident s => rw [setHeaders] at h; simp at h
  | call c as2 => rw [setHeaders] at h; simp at h
  | other t => rw [setHeaders] at h; simp at h

theorem patchSection_collect {props p2 : List (Option Key × Expr)} {sec : String}
    (h : patchSection props sec = .ok p2) :
    collectCallsP p2 = collectCallsP props := by
  induction props generalizing p2 with
  | nil =>
      rw [patchSection] at h
      have hp : p2 = [(some (.ident sec), .obj [(some (.ident "headers"), .obj headerProps)])] := by
        simpa using h.symm
      subst hp
      rfl
  | cons p rest ih =>
      obtain ⟨ok, v⟩ := p
      cases ok with
      | none => rw [patchSection] at h; simp at h
      | some k =>
          rw [patchSection] at h
          split at h
          · next hb =>
              split at h
              · simp at h
              · next v2 hs =>
                  have hp : p2 = (some k, v2) :: rest := by simpa using h.symm
                  subst hp
                  rw [collectCallsP, collectCallsP, setHeaders_collect hs]
          · next hb =>
              split at h
              · simp at h
              · next rest2 hr =>
                  have hp : p2 = (some k, v) :: rest2 := by simpa using h.symm
                  subst hp
                  rw [collectCallsP, collectCallsP, ih hr]

theorem patchSections_collect {props p2 : List (Option Key × Expr)}
    (h : patchSections props = .ok p2) :
    collectCallsP p2 = collectCallsP props := by
  rw [patchSections] at h
  split at h
  · simp at h
  · next p1 hs =>
      rw [patchSection_collect h, patchSection_collect hs]

theorem patchArgs_collect {args args2 : List Expr} (h : patchArgs args = .ok args2) :
    collectCallsL args2 = collectCallsL args := by
  cases args with
  | nil => rw [patchArgs] at h; simp at h
  | cons a rest =>
      cases a with
      | obj ps =>
          rw [patchArgs] at h
          split at h
          · simp at h
          · next p2 hp =>
              have ha : args2 = .obj p2 :: rest := by simpa using h.symm
              subst ha
              rw [collectCallsL, collectCallsL, collectCallsE, collectCallsE,
                patchSections_collect hp]
      | lit s => rw [patchArgs] at h; simp at h
      | ident s => rw [patchArgs] at h; simp at h
      | call c as2 => rw [patchArgs] at h; simp at h
      | other t => rw [patchArgs] at h; simp at h

mutual

theorem collect_nil_of_patchFirstCall_none : (e : Expr) →
    patchFirstCall e = .ok none → collectCallsE e = []
  | .lit s, _ => rfl
  | .ident s, _ => rfl
  | .other s, _ => rfl
  | .call c args, h => by
      rw [patchFirstCall] at h
      split at h
      · next hc =>
          split at h <;> simp at h
      · next hc =>
          split at h
          · simp at h
          · simp at h
          · next hh =>
              split at h
              · simp at h
              · simp at h
              · next hl =>
                  rw [collectCallsE, if_neg hc,
                    collect_nil_of_patchFirstCall_none c hh,
                    collectCallsL_nil_of_none args hl]
                  rfl
  | .obj props, h => by
      rw [patchFirstCall] at h
      split at h
      · simp at h
      · simp at h
      · next hp =>
          rw [collectCallsE, collectCallsP_nil_of_none props hp]

theorem collectCallsL_nil_of_none : (l : List Expr) →
    patchFirstCallL l = .ok none → collectCallsL l = []
  | [], _ => rfl
  | e :: rest, h => by
      rw [patchFirstCallL] at h
      split at h
      · simp at h
      · simp at h
      · next he =>
          split at h
          · simp at h
          · simp at h
          · next hr =>
              rw [collectCallsL, collect_nil_of_patchFirstCall_none e he,
                collectCallsL_nil_of_none rest hr]
              rfl

theorem collectCallsP_nil_of_none : (l : List (Option Key × Expr)) →
    patchFirstCallP l = .ok none → collectCallsP l = []
  | [], _ => rfl
  | (k, v) :: rest, h => by
      rw [patchFirstCallP] at h
      split at h
      · simp at h
      · simp at h
      · next hv =>
          split at h
          · simp at h
          · simp at h
          · next hr =>
              rw [collectCallsP, collect_nil_of_patchFirstCall_none v hv,
                collectCallsP_nil_of_none rest hr]
              rfl

end

mutual

theorem patchFirstCall_collect : (e e2 : Expr) →
    patchFirstCall e = .ok (some e2) →
    ∃ x y t, collectCallsE e = x :: t ∧ collectCallsE e2 = y :: t
  | .lit s, e2, h => by simp [patchFirstCall] at h
  | .ident s, e2, h => by simp [patchFirstCall] at h
  | .other s, e2, h => by simp [patchFirstCall] at h
  | .call c args, e2, h => by
      rw [patchFirstCall] at h
      split at h
      · next hc =>
          split at h
          · simp at h
          · next args2 ha =>
              have he : e2 = .call c args2 := by simpa using h.symm
              subst he
              refine ⟨.call c args, .call c args2,
                collectCallsE c ++ collectCallsL args, ?_, ?_⟩
              · rw [collectCallsE, if_pos hc]
                simp
              · rw [collectCallsE, if_pos hc, patchArgs_collect ha]
                simp
      · next hc =>
          split at h
          · simp at h
          · next c2 hh =>
              have he : e2 = .call c2 args := by simpa using h.symm
              subst he
              obtain ⟨x, y, t, hx, hy⟩ := patchFirstCall_collect c c2 hh
              refine ⟨x, y, t ++ collectCallsL args, ?_, ?_⟩
              · rw [collectCallsE, if_neg hc, hx]
                simp
              · rw [collectCallsE,
                  if_neg (by rw [calleeName_of_patchFirstCall_some c c2 hh]; exact hc), hy]
                simp
          · next hh =>
              split at h
              · simp at h
              · next args2 ha =>
                  have he : e2 = .call c args2 := by simpa using h.symm
                  subst he
                  obtain ⟨x, y, t, hx, hy⟩ := patchFirstCallL_collect args args2 ha
                  refine ⟨x, y, t, ?_, ?_⟩
                  · rw [collectCallsE, if_neg hc,
                      collect_nil_of_patchFirstCall_none c hh, hx]
                    rfl
                  · rw [collectCallsE, if_neg hc,
                      collect_nil_of_patchFirstCall_none c hh, hy]
                    rfl
              · simp at h
  | .obj props, e2, h => by
      rw [patchFirstCall] at h
      split at h
      · simp at h
      · next p2 hp =>
          have he : e2 = .obj p2 := by simpa using h.symm
          subst he
          obtain ⟨x, y, t, hx, hy⟩ := patchFirstCallP_collect props p2 hp
          exact ⟨x, y, t, by rw [collectCallsE, hx], by rw [collectCallsE, hy]⟩
      · simp at h

theorem patchFirstCallL_collect : (l l2 : List Expr) →
    patchFirstCallL l = .ok (some l2) →
    ∃ x y t, collectCallsL l = x :: t ∧ collectCallsL l2 = y :: t
  | [], l2, h => by simp [patchFirstCallL] at h
  | e :: rest, l2, h => by
      rw [patchFirstCallL] at h
      split at h
      · simp at h
      · next e2 he =>
          have hl : l2 = e2 :: rest := by simpa using h.symm
          subst hl
          obtain ⟨x, y, t, hx, hy⟩ := patchFirstCall_collect e e2 he
          refine ⟨x, y, t ++ collectCallsL rest, ?_, ?_⟩
          · rw [collectCallsL, hx]; simp
          · rw [collectCallsL, hy]; simp
      · next he =>
          split at h
          · simp at h
          · next rest2 hr =>
              have hl : l2 = e :: rest2 := by simpa using h.symm
              subst hl
              obtain ⟨x, y, t, hx, hy⟩ := patchFirstCallL_collect rest rest2 hr
              refine ⟨x, y, t, ?_, ?_⟩
              · rw [collectCallsL, collect_nil_of_patchFirstCall_none e he, hx]; rfl
              · rw [collectCallsL, collect_nil_of_patchFirstCall_none e he, hy]; rfl
          · simp at h

theorem patchFirstCallP_collect : (l l2 : List (Option Key × Expr)) →
    patchFirstCallP l = .ok (some l2) →
    ∃ x y t, collectCallsP l = x :: t ∧ collectCallsP l2 = y :: t
  | [], l2, h => by simp [patchFirstCallP] at h
  | (k, v) :: rest, l2, h => by
      rw [patchFirstCallP] at h
      split at h
      · simp at h
      · next v2 hv =>
          have hl : l2 = (k, v2) :: rest := by simpa using h.symm
          subst hl
          obtain ⟨x, y, t, hx, hy⟩ := patchFirstCall_collect v v2 hv
          refine ⟨x, y, t ++ collectCallsP rest, ?_, ?_⟩
          · rw [collectCallsP, hx]; simp
          · rw [collectCallsP, hy]; simp
      · next hv =>
          split at h
          · simp at h
          · next rest2 hr =>
              have hl : l2 = (k, v) :: rest2 := by simpa using h.symm
              subst hl
              obtain ⟨x, y, t, hx, hy⟩ := patchFirstCallP_collect rest rest2 hr
              refine ⟨x, y, t, ?_, ?_⟩
              · rw [collectCallsP, collect_nil_of_patchFirstCall_none v hv, hx]; rfl
              · rw [collectCallsP, collect_nil_of_patchFirstCall_none v hv, hy]; rfl
          · simp at h

end

mutual

theorem patchFirstCall_of_collect_nil : (e : Expr) →
    collectCallsE e = [] → patchFirstCall e = .ok none
  | .lit s, _ => rfl
  | .ident s, _ => rfl
  | .other s, _ => rfl
  | .call c args, h => by
      rw [collectCallsE] at h
      obtain ⟨h12, h3⟩ := List.append_eq_nil.mp h
      obtain ⟨h1, h2⟩ := List.append_eq_nil.mp h12
      have hb : ¬((calleeName c == some "defineConfig") = true) := by
        intro hbb
        rw [if_pos hbb] at h1
        simp at h1
      rw [patchFirstCall, if_neg hb, patchFirstCall_of_collect_nil c h2,
        patchFirstCallL_of_collect_nil args h3]
  | .obj props, h => by
      rw [collectCallsE] at h
      rw [patchFirstCall, patchFirstCallP_of_collect_nil props h]

theorem patchFirstCallL_of_collect_nil : (l : List Expr) →
    collectCallsL l = [] → patchFirstCallL l = .ok none
  | [], _ => rfl
  | e :: rest, h => by
      rw [collectCallsL] at h
      obtain ⟨h1, h2⟩ := List.append_eq_nil.mp h
      rw [patchFirstCallL, patchFirstCall_of_collect_nil e h1,
        patchFirstCallL_of_collect_nil rest h2]

theorem patchFirstCallP_of_collect_nil : (l : List (Option Key × Expr)) →
    collectCallsP l = [] → patchFirstCallP l = .ok none
  | [], _ => rfl
  | (k, v) :: rest, h => by
      rw [collectCallsP] at h
      obtain ⟨h1, h2⟩ := List.append_eq_nil.mp h
      rw [patchFirstCallP, patchFirstCall_of_collect_nil v h1,
        patchFirstCallP_of_collect_nil rest h2]

end

/-- C5: for a program containing no call expression whose callee is the
identifier `defineConfig`, the transform hits the `size() === 0` branch
and returns the input source string itself, byte for byte. -/
theorem c5_noop_without_factory_call
    (parse : String → Option (List Expr)) (toSource : List Expr → String)
    (src : String) (prog : List Expr)
    (h1 : parse src = some prog) (h2 : collectCallsL prog = []) :
    patchWith parse toSource src = .ok src := by
  simp only [patchWith, h1, patchFirstCallL_of_collect_nil prog h2]

/-- C5 witness: a source with no `defineConfig` call comes back exactly
as it went in. -/
theorem c5_witness :
    patchWith opaqueParse emptyPrint "const answer = 42" = .ok "const answer = 42" :=
  c5_noop_without_factory_call opaqueParse emptyPrint "const answer = 42"
    [Expr.other "const answer = 42"] rfl rfl

/-- C9: when the input contains two or more `defineConfig` calls, only
the first one in pre-order is modified: the pre-order list of call
nodes of the output, with its first element dropped, is identical to
that of the input, so every later call site (arguments included) is
untouched. -/
theorem c9_only_first_call_modified (prog prog2 : List Expr)
    (h : transform prog = .ok prog2)
    (hlen : 2 ≤ (collectCallsL prog).length) :
    (collectCallsL prog2).drop 1 = (collectCallsL prog).drop 1 := by
  rw [transform] at h
  split at h
  · simp at h
  · next hn =>
      have hp : prog2 = prog := by simpa using h.symm
      rw [hp]
  · next p2 hp =>
      have hq : prog2 = p2 := by simpa using h.symm
      subst hq
      obtain ⟨x, y, t, hx, hy⟩ := patchFirstCallL_collect prog prog2 hp
      rw [hx, hy]
      simp

/-- C9 witness: a program with two `defineConfig` calls keeps its second
call node (argument included) unchanged after the transform. -/
theorem c9_witness :
    (collectCallsL
      (runTransform
        [.call (.ident "defineConfig") [.obj []],
         .call (.ident "defineConfig") [.obj [(some (.ident "x"), .lit "1")]]])).drop 1
    = (collectCallsL
        [.call (.ident "defineConfig") [.obj []],
         .call (.ident "defineConfig") [.obj [(some (.ident "x"), .lit "1")]]]).drop 1 :=
  c9_only_first_call_modified
    [.call (.ident "defineConfig") [.obj []],
     .call (.ident "defineConfig") [.obj [(some (.ident "x"), .lit "1")]]]
    (runTransform
      [.call (.ident "defineConfig") [.obj []],
       .call (.ident "defineConfig") [.obj [(some (.ident "x"), .lit "1")]]])
    (by rfl) (by decide)

/-! ### Artifact consistency (claim C7) -/

/-- C7 counterexample: the `Content-Security-Policy` value in the build
config header list `SECURITY_HEADERS` differs from the value emitted by
the generated Express server, so the exact canonical value string does
not appear in all three artifacts: the claim of verbatim agreement on
all nine entries is false. -/
theorem c7_counterexample :
    (List.lookup "Content-Security-Policy" SECURITY_HEADERS).isSome = true ∧
    (List.lookup "Content-Security-Policy" serverTemplateHeaders).isSome = true ∧
    List.lookup "Content-Security-Policy" SECURITY_HEADERS
      ≠ List.lookup "Content-Security-Policy" serverTemplateHeaders := by
  refine ⟨rfl, rfl, ?_⟩
  decide

/-- C7 (amended): the three artifacts carry the same nine header names
in the same order, the server and proxy artifacts agree with each other
on every name/value pair, and the build-config list agrees with them
verbatim on the eight entries other than `Content-Security-Policy`. -/
theorem c7_artifacts_agree_except_csp :
    SECURITY_HEADERS.map Prod.fst = serverTemplateHeaders.map Prod.fst ∧
    serverTemplateHeaders = nginxTemplateHeaders ∧
    SECURITY_HEADERS.filter (fun p => p.1 != "Content-Security-Policy")
      = serverTemplateHeaders.filter (fun p => p.1 != "Content-Security-Policy") :=
  ⟨rfl, rfl, rfl⟩

/-! ### Package manifest update (claim C8) -/

theorem lookup_setKey_self (m : List (String × String)) (k v : String) :
    List.lookup k (setKey m k v) = some v := by
  induction m with
  | nil => simp [setKey, List.lookup]
  | cons p rest ih =>
      obtain ⟨k1, v1⟩ := p
      rw [setKey]
      split
      · next hb => simp [List.lookup]
      · next hb =>
          have hkk : (k == k1) = false := by
            simp only [beq_eq_false_iff_ne]
            intro he
            exact hb (by simp [he])
          simp [List.lookup, hkk, ih]

theorem lookup_setKey_ne (m : List (String × String)) (k0 k v : String) (hk : k ≠ k0) :
    List.lookup k (setKey m k0 v) = List.lookup k m := by
  induction m with
  | nil =>
      have hkk : (k == k0) = false := beq_eq_false_iff_ne.mpr hk
      simp [setKey, List.lookup, hkk]
  | cons p rest ih =>
      obtain ⟨k1, v1⟩ := p
      rw [setKey]
      split
      · next hb =>
          have hk1 : k1 = k0 := by simpa using hb
          subst hk1
          have hkk : (k == k1) = false := beq_eq_false_iff_ne.mpr hk
          simp [List.lookup, hkk]
      · next hb =>
          cases hkk : (k == k1) <;> simp [List.lookup, hkk, ih]

/-- C8 (amended): the manifest update is additive for the `express`
dependency map and the `type` field (a pre-existing truthy value is
kept, the whole dependency map is untouched), and it preserves every
script other than `start`; the `start` script, however, is always set
to `node server.js`, overwriting any pre-existing value. -/
theorem c8_additive_except_start_script
    (scripts deps : List (String × String)) (t v k : String)
    (hv : List.lookup "express" deps = some v) (hv2 : v ≠ "")
    (ht : t ≠ "") (hk : k ≠ "start") :
    (updatePkg ⟨some scripts, some deps, some t⟩).dependencies = some deps ∧
    (updatePkg ⟨some scripts, some deps, some t⟩).type = some t ∧
    (updatePkg ⟨some scripts, some deps, some t⟩).scripts
      = some (setKey scripts "start" "node server.js") ∧
    List.lookup "start" (setKey scripts "start" "node server.js") = some "node server.js" ∧
    List.lookup k (setKey scripts "start" "node server.js") = List.lookup k scripts := by
  refine ⟨?_, ?_, rfl, lookup_setKey_self scripts "start" "node server.js",
    lookup_setKey_ne scripts "start" k "node server.js" hk⟩
  · simp [updatePkg, hv, truthyVal, hv2]
  · simp [updatePkg, truthyVal, ht]

/-- C8 witness: a manifest with a `dev` script, a pre-existing `express`
version and `type: module` keeps its dependency map, its `type` and its
`dev` script. -/
theorem c8_witness :
    (updatePkg ⟨some [("dev", "vite"), ("start", "vite preview")],
                some [("express", "^4.18.0")], some "module"⟩).dependencies
      = some [("express", "^4.18.0")] ∧
    (updatePkg ⟨some [("dev", "vite"), ("start", "vite preview")],
                some [("express", "^4.18.0")], some "module"⟩).type = some "module" ∧
    (updatePkg ⟨some [("dev", "vite"), ("start", "vite preview")],
                some [("express", "^4.18.0")], some "module"⟩).scripts
      = some (setKey [("dev", "vite"), ("start", "vite preview")] "start" "node server.js") ∧
    List.lookup "start"
      (setKey [("dev", "vite"), ("start", "vite preview")] "start" "node server.js")
      = some "node server.js" ∧
    List.lookup "dev"
      (setKey [("dev", "vite"), ("start", "vite preview")] "start" "node server.js")
      = List.lookup "dev" [("dev", "vite"), ("start", "vite preview")] :=
  c8_additive_except_start_script [("dev", "vite"), ("start", "vite preview")]
    [("express", "^4.18.0")] "module" "^4.18.0" "dev" rfl (by decide) (by decide) (by decide)

/-- C8 counterexample: a pre-existing user `start` script value
`vite preview` is overwritten with `node server.js` by the manifest
update, and likewise the `src/bin/cli.js` variant overwrites a
pre-existing `serve:prod` script, contradicting the claim that
pre-existing script values are never changed. -/
theorem c8_counterexample :
    (updatePkg ⟨some [("start", "vite preview")], some [("express", "^4.18.0")],
                some "module"⟩).scripts = some [("start", "node server.js")] ∧
    updatePkgCli ⟨some [("serve:prod", "http-server dist")], none, none⟩
      = .ok ⟨some [("serve:prod", "node server.js")], none, none⟩ :=
  ⟨rfl, rfl⟩
